import Mathlib

/-!
Verification of the "56" card-game rules engine.

Shallow embedding of the repository's core modules:
  * `src/card.py`    — suits, ranks, point values, the 48-card double deck
  * `src/player.py`  — hands, won-trick piles, legal-card computation
  * `src/bidding.py` — the bidding state machine
  * `src/trick.py`   — tricks, winner resolution, the trick manager
  * `src/game.py`    — round scoring

Python objects are modelled as immutable Lean structures; mutating methods
become functions returning the updated state (paired with the method's
boolean result, or wrapped in `Option` when the method can raise).  Seats
are `Fin 4` in the fixed table order North=0, East=1, South=2, West=3
(`GameSetup.create_standard_game`), so the two partnerships are seats
{0,2} and {1,3} and a seat's partnership is its index mod 2.
-/

/-- Mirrors `Suit` (src/card.py lines 10-15). -/
inductive Suit where
  | hearts
  | diamonds
  | clubs
  | spades
deriving DecidableEq, Fintype

/-- Mirrors `Rank` (src/card.py lines 18-25), listed in the enum's
declaration order. -/
inductive Rank where
  | jack
  | nine
  | ace
  | ten
  | king
  | queen
deriving DecidableEq, Fintype

/-- The `points` component of each `Rank` enum member (src/card.py lines 20-25). -/
def Rank.points : Rank → Nat
  | .jack => 3
  | .nine => 2
  | .ace => 1
  | .ten => 1
  | .king => 0
  | .queen => 0

/-- The `rank_value` component of each `Rank` enum member
(src/card.py lines 20-25): higher value beats lower in a trick. -/
def Rank.rank_value : Rank → Nat
  | .jack => 6
  | .nine => 5
  | .ace => 4
  | .ten => 3
  | .king => 2
  | .queen => 1

/-- Mirrors `Card` (src/card.py lines 33-57).  `Card.__eq__` compares the
`(suit, rank)` pair, which is exactly the structural equality of this
two-field structure. -/
structure Card where
  suit : Suit
  rank : Rank
deriving DecidableEq, Fintype

/-- Mirrors the `Card.points` property (src/card.py lines 40-43). -/
def Card.points (c : Card) : Nat :=
  c.rank.points

/-- Suits in the `Suit` enum's iteration order (src/card.py lines 10-15). -/
def suit_order : List Suit :=
  [.hearts, .diamonds, .clubs, .spades]

/-- Ranks in the `Rank` enum's iteration order (src/card.py lines 18-25). -/
def rank_order : List Rank :=
  [.jack, .nine, .ace, .ten, .king, .queen]

/-- One 24-card single deck: the inner two loops of `Deck._create_deck`
(src/card.py lines 72-75). -/
def single_deck : List Card :=
  suit_order.flatMap fun s => rank_order.map fun r => Card.mk s r

/-- Mirrors `Deck._create_deck` (src/card.py lines 67-75): two identical
24-card decks appended in iteration order. -/
def full_deck : List Card :=
  single_deck ++ single_deck

/-- Mirrors `calculate_hand_points` (src/card.py lines 111-113). -/
def calculate_hand_points (cards : List Card) : Nat :=
  (cards.map Card.points).sum

namespace Player

/-- Mirrors `Player.play_card` (src/player.py lines 31-36) on the hand it
mutates: removes the first copy of `card` when present (Python
`list.remove`), and `none` models the raised `ValueError` (the hand is
left untouched in that case). -/
def play_card (hand : List Card) (card : Card) : Option (List Card) :=
  if card ∈ hand then some (hand.erase card) else none

/-- Mirrors `Player.get_valid_cards` (src/player.py lines 42-54); the
`trump_suit` argument is accepted and ignored exactly as in the source. -/
def get_valid_cards (hand : List Card) (led_suit : Option Suit)
    (trump_suit : Option Suit) : List Card :=
  match led_suit with
  | none => hand
  | some l =>
    let same_suit_cards := hand.filter fun c => decide (c.suit = l)
    match same_suit_cards with
    | [] => hand
    | c :: rest => c :: rest

/-- Mirrors `Player.get_total_points` (src/player.py lines 68-73) on the
`tricks_won` list it reads. -/
def get_total_points (tricks_won : List (List Card)) : Nat :=
  (tricks_won.map calculate_hand_points).sum

end Player

/-- C9: a fresh deck has exactly 48 cards, exactly two copies of each of
the 24 (suit, rank) pairs, the point table is Jack=3, Nine=2, Ace=1,
Ten=1, King=0, Queen=0, the trick-rank strictly orders the ranks as
Queen < King < Ten < Ace < Nine < Jack (distinct ranks never share a
trick-rank), and the whole deck is worth 56 points. -/
theorem deck_properties :
    full_deck.length = 48 ∧
    (∀ s : Suit, ∀ r : Rank, full_deck.count (Card.mk s r) = 2) ∧
    (Rank.points .jack = 3 ∧ Rank.points .nine = 2 ∧ Rank.points .ace = 1 ∧
      Rank.points .ten = 1 ∧ Rank.points .king = 0 ∧ Rank.points .queen = 0) ∧
    (Rank.rank_value .queen < Rank.rank_value .king ∧
      Rank.rank_value .king < Rank.rank_value .ten ∧
      Rank.rank_value .ten < Rank.rank_value .ace ∧
      Rank.rank_value .ace < Rank.rank_value .nine ∧
      Rank.rank_value .nine < Rank.rank_value .jack) ∧
    (∀ r r' : Rank, r ≠ r' → Rank.rank_value r ≠ Rank.rank_value r') ∧
    calculate_hand_points full_deck = 56 := by
  decide

/-- C10: card equality is determined by the (suit, rank) pair, so the two
physical copies from the duplicate decks are indistinguishable; playing a
card that is in the hand removes exactly one copy (the hand shrinks by
exactly 1), and playing a card with no copy in the hand errors out,
leaving the hand unchanged. -/
theorem card_identity_and_play :
    (∀ c d : Card, c = d ↔ c.suit = d.suit ∧ c.rank = d.rank) ∧
    (∀ (hand : List Card) (c : Card), c ∈ hand →
      Player.play_card hand c = some (hand.erase c) ∧
      (hand.erase c).length + 1 = hand.length) ∧
    (∀ (hand : List Card) (c : Card), c ∉ hand →
      Player.play_card hand c = none) := by
  refine ⟨?_, ?_, ?_⟩
  · intro c d
    constructor
    · intro h; rw [h]; exact ⟨rfl, rfl⟩
    · intro ⟨hs, hr⟩
      cases c; cases d
      simp only at hs hr
      rw [hs, hr]
  · intro hand c hc
    refine ⟨by simp [Player.play_card, hc], ?_⟩
    have hlen : (hand.erase c).length = hand.length - 1 :=
      List.length_erase_of_mem hc
    have hpos : 0 < hand.length := List.length_pos.mpr (by
      intro h; rw [h] at hc; exact absurd hc (List.not_mem_nil c))
    omega
  · intro hand c hc
    simp [Player.play_card, hc]

/-- Witness for the hypothesised parts of `card_identity_and_play`,
evaluated on a concrete hand holding duplicate copies. -/
theorem card_identity_and_play_witness :
    Card.mk .hearts .jack ∈ [Card.mk .hearts .jack, Card.mk .hearts .jack, Card.mk .clubs .nine] ∧
    Player.play_card [Card.mk .hearts .jack, Card.mk .hearts .jack, Card.mk .clubs .nine]
        (Card.mk .hearts .jack) =
      some [Card.mk .hearts .jack, Card.mk .clubs .nine] ∧
    Card.mk .spades .queen ∉ [Card.mk .hearts .jack, Card.mk .hearts .jack, Card.mk .clubs .nine] ∧
    Player.play_card [Card.mk .hearts .jack, Card.mk .hearts .jack, Card.mk .clubs .nine]
        (Card.mk .spades .queen) = none := by
  refine ⟨by decide, ?_, by decide, ?_⟩
  · exact ((card_identity_and_play.2.1
      [Card.mk .hearts .jack, Card.mk .hearts .jack, Card.mk .clubs .nine]
      (Card.mk .hearts .jack) (by decide)).1).trans (by decide)
  · exact card_identity_and_play.2.2
      [Card.mk .hearts .jack, Card.mk .hearts .jack, Card.mk .clubs .nine]
      (Card.mk .spades .queen) (by decide)

/-- Mirrors `BidAction` (src/bidding.py lines 10-13). -/
inductive BidAction where
  | bid
  | pass
deriving DecidableEq

/-- Mirrors `Bid` (src/bidding.py lines 16-22); the player is its seat
index and `amount` defaults to 0 for passes, as in the source. -/
structure Bid where
  player : Fin 4
  action : BidAction
  amount : Nat
deriving DecidableEq

/-- Mirrors the mutable state of `BiddingRound` (src/bidding.py lines
37-46).  `team_of` is the seat-to-partnership map that
`BiddingRound.get_player_team` (lines 60-65) recovers by scanning the
team lists; in the standard setup it is seat index mod 2. -/
structure BiddingRound where
  team_of : Fin 4 → Fin 2
  starting_player : Fin 4
  bids : List Bid
  current_bid : Nat
  winning_bid : Option Bid
  winning_team : Option (Fin 2)
  is_complete : Bool
  consecutive_passes : Nat

/-- Mirrors `BiddingRound.__init__` (src/bidding.py lines 37-46):
`current_bid` starts at 27 so that the minimum first bid is 28. -/
def BiddingRound.init (team_of : Fin 4 → Fin 2) (starting_player : Fin 4) :
    BiddingRound :=
  { team_of := team_of
    starting_player := starting_player
    bids := []
    current_bid := 27
    winning_bid := none
    winning_team := none
    is_complete := false
    consecutive_passes := 0 }

/-- Mirrors `BiddingRound.get_minimum_bid` (src/bidding.py lines 48-50). -/
def BiddingRound.get_minimum_bid (s : BiddingRound) : Nat :=
  max 28 (s.current_bid + 1)

/-- Mirrors `BiddingRound.get_maximum_bid` (src/bidding.py lines 52-54). -/
def BiddingRound.get_maximum_bid (s : BiddingRound) : Nat :=
  56

/-- Mirrors `BiddingRound.is_valid_bid` (src/bidding.py lines 56-58). -/
def BiddingRound.is_valid_bid (s : BiddingRound) (amount : Nat) : Bool :=
  decide (s.get_minimum_bid ≤ amount) && decide (amount ≤ s.get_maximum_bid)

/-- Mirrors `BiddingRound.can_player_bid` (src/bidding.py lines 67-80);
the `winning_team == player_team` comparison is false while no winning
team exists (Python `None == team`). -/
def BiddingRound.can_player_bid (s : BiddingRound) (player : Fin 4)
    (amount : Nat) : Bool :=
  if s.is_complete then false
  else if !s.is_valid_bid amount then false
  else if s.winning_team = some (s.team_of player) then false
  else true

/-- Mirrors `BiddingRound.make_bid` (src/bidding.py lines 82-107).  The
Python method mutates `self` and returns a `bool`; here the pair carries
the post-state and that boolean, so a `false` result with an unchanged
state is exactly the source's early `return False` paths. -/
def BiddingRound.make_bid (s : BiddingRound) (player : Fin 4)
    (action : BidAction) (amount : Nat) : BiddingRound × Bool :=
  if s.is_complete then (s, false)
  else
    match action with
    | .bid =>
      if s.can_player_bid player amount then
        ({ s with
            bids := s.bids ++ [⟨player, .bid, amount⟩]
            current_bid := amount
            winning_bid := some ⟨player, .bid, amount⟩
            winning_team := some (s.team_of player)
            consecutive_passes := 0 }, true)
      else (s, false)
    | .pass =>
      let s1 := { s with
        bids := s.bids ++ [⟨player, .pass, 0⟩]
        consecutive_passes := s.consecutive_passes + 1 }
      if 3 ≤ s1.consecutive_passes ∧ s1.winning_bid.isSome then
        ({ s1 with is_complete := true }, true)
      else (s1, true)

/-- C3: a bid of amount `a` by seat `p` is accepted exactly when the round
is not complete, `max 28 (current_bid + 1) ≤ a ≤ 56`, and `p`'s
partnership is not the current high partnership; consequently a bid equal
to the current high bid is always rejected, and from the initial state
(current high 27, i.e. before any bid) acceptance requires `28 ≤ a`. -/
theorem bid_acceptance_iff :
    (∀ (s : BiddingRound) (p : Fin 4) (a : Nat),
      (s.make_bid p .bid a).2 = true ↔
        s.is_complete = false ∧ max 28 (s.current_bid + 1) ≤ a ∧ a ≤ 56 ∧
          s.winning_team ≠ some (s.team_of p)) ∧
    (∀ (s : BiddingRound) (p : Fin 4), (s.make_bid p .bid s.current_bid).2 = false) ∧
    (∀ (t : Fin 4 → Fin 2) (q p : Fin 4) (a : Nat),
      ((BiddingRound.init t q).make_bid p .bid a).2 = true ↔ 28 ≤ a ∧ a ≤ 56) := by
  have main : ∀ (s : BiddingRound) (p : Fin 4) (a : Nat),
      (s.make_bid p .bid a).2 = true ↔
        s.is_complete = false ∧ max 28 (s.current_bid + 1) ≤ a ∧ a ≤ 56 ∧
          s.winning_team ≠ some (s.team_of p) := by
    intro s p a
    simp only [BiddingRound.make_bid, BiddingRound.can_player_bid,
      BiddingRound.is_valid_bid, BiddingRound.get_minimum_bid,
      BiddingRound.get_maximum_bid]
    by_cases hc : s.is_complete <;>
      by_cases hmin : max 28 (s.current_bid + 1) ≤ a <;>
      by_cases hmax : a ≤ 56 <;>
      by_cases hteam : s.winning_team = some (s.team_of p) <;>
      simp [hc, hmin, hmax, hteam]
  refine ⟨main, ?_, ?_⟩
  · intro s p
    rw [Bool.eq_false_iff]
    intro h
    have := (main s p s.current_bid).mp h
    omega
  · intro t q p a
    rw [main]
    simp [BiddingRound.init]

/-- The bidding state reached from a fresh round after all four seats
pass in rotation with no bid ever made. -/
def all_pass_state : BiddingRound :=
  ((((((BiddingRound.init (fun p => ⟨p.val % 2, Nat.mod_lt _ (by omega)⟩) 0).make_bid
      0 .pass 0).1.make_bid 1 .pass 0).1.make_bid 2 .pass 0).1.make_bid 3 .pass 0).1)

/-- C2: the code contradicts the documented no-bid outcome.  Starting from
a fresh round, each of the four seats passes and every pass is accepted,
so four passes with no bid are on record — yet `is_complete` is still
`false`: `make_bid` only ever sets completion when a winning bid exists
(src/bidding.py lines 103-105), so the all-pass round never completes.
The three-passes-after-a-bid half of the completion rule is what the code
implements. -/
theorem all_pass_never_completes :
    all_pass_state.bids.length = 4 ∧
    (∀ b ∈ all_pass_state.bids, b.action = .pass) ∧
    all_pass_state.winning_bid = none ∧
    all_pass_state.consecutive_passes = 4 ∧
    all_pass_state.is_complete = false := by
  refine ⟨rfl, by decide, rfl, rfl, rfl⟩

/-- Mirrors `TrickCard` (src/trick.py lines 11-22): a card together with
the seat that played it. -/
structure TrickCard where
  card : Card
  player : Fin 4
deriving DecidableEq

/-- The key Python's `max` uses in `Trick._get_highest_card`
(src/trick.py line 92): `tc.card.rank.rank_value`. -/
def TrickCard.rank_value (tc : TrickCard) : Nat :=
  tc.card.rank.rank_value

/-- Mirrors the state of `Trick` (src/trick.py lines 28-34). -/
structure Trick where
  trick_number : Nat
  leading_player : Fin 4
  cards_played : List TrickCard
  winner : Option (Fin 4)
  trump_suit : Option Suit
  led_suit : Option Suit
deriving DecidableEq

/-- Python's `max(trick_cards, key=...)` scan (src/trick.py line 92):
walk the list keeping the current best, replacing it only on a strictly
greater key — so the first of several tied maxima is kept. -/
def max_by (cur : TrickCard) : List TrickCard → TrickCard
  | [] => cur
  | tc :: rest =>
    if cur.rank_value < tc.rank_value then max_by tc rest else max_by cur rest

/-- Mirrors `Trick._get_highest_card` (src/trick.py lines 86-92); `none`
models the `ValueError` on an empty list. -/
def get_highest_card : List TrickCard → Option TrickCard
  | [] => none
  | tc :: rest => some (max_by tc rest)

/-- The trump-bucket test of `Trick._determine_winner` (src/trick.py line
66): `self.trump_suit and trick_card.card.suit == self.trump_suit`. -/
def Trick.is_trump_play (t : Trick) (tc : TrickCard) : Bool :=
  match t.trump_suit with
  | none => false
  | some s => decide (tc.card.suit = s)

/-- The `trump_cards` bucket built by `Trick._determine_winner`
(src/trick.py lines 60-71), in play order. -/
def Trick.trump_plays (t : Trick) : List TrickCard :=
  t.cards_played.filter fun tc => t.is_trump_play tc

/-- The `led_suit_cards` bucket built by `Trick._determine_winner`
(src/trick.py lines 60-71), in play order: not a trump play and the
card's suit equals the recorded led suit. -/
def Trick.led_plays (t : Trick) : List TrickCard :=
  t.cards_played.filter fun tc =>
    !t.is_trump_play tc && decide (some tc.card.suit = t.led_suit)

/-- Mirrors `Trick._determine_winner` (src/trick.py lines 55-84): only
defined on 4-card tricks; trump plays beat everything, otherwise the led
suit decides; `none` models the raised `ValueError`s. -/
def Trick.determine_winner (t : Trick) : Option (Fin 4) :=
  if t.cards_played.length = 4 then
    match t.trump_plays with
    | tc :: rest => some (max_by tc rest).player
    | [] =>
      match t.led_plays with
      | tc :: rest => some (max_by tc rest).player
      | [] => none
  else none

/-- Mirrors `Trick.add_card` (src/trick.py lines 36-53): `none` models
the `ValueError` on a full trick; otherwise the play is appended, the
trump suit is overwritten when one is passed, the led suit is fixed by
the first play, and the winner is resolved on the fourth play. -/
def Trick.add_card (t : Trick) (c : Card) (p : Fin 4) (trump : Option Suit) :
    Option Trick :=
  if 4 ≤ t.cards_played.length then none
  else
    let plays := t.cards_played ++ [⟨c, p⟩]
    let t1 : Trick :=
      { t with
          cards_played := plays
          trump_suit := match trump with | some s => some s | none => t.trump_suit
          led_suit := if plays.length = 1 then some c.suit else t.led_suit }
    some (if plays.length = 4 then { t1 with winner := t1.determine_winner } else t1)

/-- Mirrors `Trick.get_cards` (src/trick.py lines 98-100). -/
def Trick.get_cards (t : Trick) : List Card :=
  t.cards_played.map fun tc => tc.card

/-- Python's `max(trick_cards, key=...)` picks the first element whose
key is maximal: the scan's result splits its input so that everything
before the result is strictly smaller and nothing anywhere is larger. -/
theorem max_by_first_max : ∀ (l : List TrickCard) (cur : TrickCard),
    ∃ l₁ l₂, cur :: l = l₁ ++ max_by cur l :: l₂ ∧
      (∀ tc ∈ l₁, tc.rank_value < (max_by cur l).rank_value) ∧
      (∀ tc ∈ cur :: l, tc.rank_value ≤ (max_by cur l).rank_value) := by
  intro l
  induction l with
  | nil =>
    intro cur
    exact ⟨[], [], rfl, by simp, by simp [max_by]⟩
  | cons x xs ih =>
    intro cur
    by_cases h : cur.rank_value < x.rank_value
    · obtain ⟨l₁, l₂, heq, hstrict, hle⟩ := ih x
      have hx : x.rank_value ≤ (max_by x xs).rank_value := hle x (by simp)
      refine ⟨cur :: l₁, l₂, ?_, ?_, ?_⟩
      · simp only [max_by, h, if_true, List.cons_append]
        rw [← heq]
      · intro tc htc
        simp only [max_by, h, if_true]
        rcases List.mem_cons.mp htc with rfl | hmem
        · omega
        · exact hstrict tc hmem
      · intro tc htc
        simp only [max_by, h, if_true]
        rcases List.mem_cons.mp htc with rfl | hmem
        · omega
        · exact hle tc hmem
    · obtain ⟨l₁, l₂, heq, hstrict, hle⟩ := ih cur
      have hcur : cur.rank_value ≤ (max_by cur xs).rank_value := hle cur (by simp)
      cases l₁ with
      | nil =>
        rw [List.nil_append] at heq
        have hm : cur = max_by cur xs := (List.cons.inj heq).1
        refine ⟨[], x :: xs, ?_, by simp, ?_⟩
        · simp only [max_by, h, if_false, List.nil_append]
          rw [← hm]
        · intro tc htc
          simp only [max_by, h, if_false]
          rcases List.mem_cons.mp htc with rfl | hmem
          · exact hcur
          · rcases List.mem_cons.mp hmem with rfl | hmem'
            · omega
            · exact hle tc (by simp [hmem'])
      | cons a l₁' =>
        rw [List.cons_append] at heq
        have ha : a = cur ∧ xs = l₁' ++ max_by cur xs :: l₂ :=
          ⟨(List.cons.inj heq).1.symm, (List.cons.inj heq).2⟩
        have hacur : cur.rank_value < (max_by cur xs).rank_value := by
          have := hstrict a (by simp)
          rw [ha.1] at this
          exact this
        refine ⟨cur :: x :: l₁', l₂, ?_, ?_, ?_⟩
        · simp only [max_by, h, if_false, List.cons_append]
          rw [← ha.2]
        · intro tc htc
          simp only [max_by, h, if_false]
          rcases List.mem_cons.mp htc with rfl | hmem
          · exact hacur
          · rcases List.mem_cons.mp hmem with rfl | hmem'
            · omega
            · have := hstrict tc (by simp [hmem'])
              exact this
        · intro tc htc
          simp only [max_by, h, if_false]
          rcases List.mem_cons.mp htc with rfl | hmem
          · exact hcur
          · rcases List.mem_cons.mp hmem with rfl | hmem'
            · omega
            · exact hle tc (List.mem_cons_of_mem _ hmem')

/-- C1: in a completed trick (exactly 4 plays, led suit the suit of the
first play), the resolved winner played the highest-trick-rank trump card
when any trump was played, and otherwise the highest-trick-rank card of
the led suit; in either bucket every play made before the winning one is
strictly lower, so the first-played card wins among exact ties. -/
theorem trick_winner_first_highest (t : Trick)
    (h4 : t.cards_played.length = 4)
    (hled : t.led_suit = t.cards_played.head?.map fun tc => tc.card.suit) :
    (t.trump_plays ≠ [] →
      ∃ pre w post, t.trump_plays = pre ++ w :: post ∧
        t.determine_winner = some w.player ∧
        (∀ tc ∈ pre, tc.rank_value < w.rank_value) ∧
        (∀ tc ∈ t.trump_plays, tc.rank_value ≤ w.rank_value)) ∧
    (t.trump_plays = [] → t.led_plays ≠ [] →
      ∃ pre w post, t.led_plays = pre ++ w :: post ∧
        t.determine_winner = some w.player ∧
        (∀ tc ∈ pre, tc.rank_value < w.rank_value) ∧
        (∀ tc ∈ t.led_plays, tc.rank_value ≤ w.rank_value)) := by
  constructor
  · intro htr
    rcases hcase : t.trump_plays with _ | ⟨tc, rest⟩
    · exact absurd hcase htr
    · obtain ⟨l₁, l₂, heq, hstrict, hle⟩ := max_by_first_max rest tc
      refine ⟨l₁, max_by tc rest, l₂, heq, ?_, hstrict, hle⟩
      simp only [Trick.determine_winner, h4, if_true, hcase]
  · intro htr hld
    rcases hcase : t.led_plays with _ | ⟨tc, rest⟩
    · exact absurd hcase hld
    · obtain ⟨l₁, l₂, heq, hstrict, hle⟩ := max_by_first_max rest tc
      refine ⟨l₁, max_by tc rest, l₂, heq, ?_, hstrict, hle⟩
      simp only [Trick.determine_winner, h4, if_true, htr, hcase]

/-- The worked trick of spec section 8: trump Hearts, plays
Clubs-Nine (seat 0), Hearts-Queen (seat 1), Clubs-Jack (seat 2),
Spades-Ace (seat 3); the lone trump, Hearts-Queen, wins. -/
def example_trick : Trick :=
  { trick_number := 1
    leading_player := 0
    cards_played :=
      [⟨⟨.clubs, .nine⟩, 0⟩, ⟨⟨.hearts, .queen⟩, 1⟩,
        ⟨⟨.clubs, .jack⟩, 2⟩, ⟨⟨.spades, .ace⟩, 3⟩]
    winner := none
    trump_suit := some .hearts
    led_suit := some .clubs }

/-- Witness for `trick_winner_first_highest` at the concrete trick of
spec section 8. -/
theorem trick_winner_first_highest_witness :
    example_trick.cards_played.length = 4 ∧
    example_trick.led_suit =
      (example_trick.cards_played.head?.map fun tc => tc.card.suit) ∧
    ((example_trick.trump_plays ≠ [] →
      ∃ pre w post, example_trick.trump_plays = pre ++ w :: post ∧
        example_trick.determine_winner = some w.player ∧
        (∀ tc ∈ pre, tc.rank_value < w.rank_value) ∧
        (∀ tc ∈ example_trick.trump_plays, tc.rank_value ≤ w.rank_value)) ∧
    (example_trick.trump_plays = [] → example_trick.led_plays ≠ [] →
      ∃ pre w post, example_trick.led_plays = pre ++ w :: post ∧
        example_trick.determine_winner = some w.player ∧
        (∀ tc ∈ pre, tc.rank_value < w.rank_value) ∧
        (∀ tc ∈ example_trick.led_plays, tc.rank_value ≤ w.rank_value))) :=
  ⟨by decide, by decide,
    trick_winner_first_highest example_trick (by decide) (by decide)⟩

/-- Mirrors the state of `TrickManager` (src/trick.py lines 118-124)
together with the per-seat state it drives through the `Player` objects
(src/player.py lines 18-25): each seat's hand and `tricks_won` pile. -/
structure TrickManager where
  trump_suit : Suit
  hands : Fin 4 → List Card
  tricks_won : Fin 4 → List (List Card)
  tricks : List Trick
  current_trick : Option Trick
  current_player_index : Fin 4

/-- Mirrors `TrickManager.__init__` (src/trick.py lines 118-124) for
freshly dealt hands: empty piles, no tricks, no open trick, seat 0 to
act. -/
def TrickManager.init (hands : Fin 4 → List Card) (trump : Suit) :
    TrickManager :=
  { trump_suit := trump
    hands := hands
    tricks_won := fun _ => []
    tricks := []
    current_trick := none
    current_player_index := 0 }

/-- Mirrors `TrickManager.start_new_trick` (src/trick.py lines 126-135):
unconditionally installs a fresh trick numbered `count(tricks) + 1` with
the manager's trump suit and makes the leader the current player.  The
source performs no check on `current_trick`. -/
def TrickManager.start_new_trick (m : TrickManager) (leading : Fin 4) :
    TrickManager :=
  { m with
      current_trick := some
        { trick_number := m.tricks.length + 1
          leading_player := leading
          cards_played := []
          winner := none
          trump_suit := some m.trump_suit
          led_suit := none }
      current_player_index := leading }

/-- Mirrors `TrickManager._is_valid_play` (src/trick.py lines 171-183):
hand membership first, then (unless the trick is empty or absent) the
led-suit rule via `Player.get_valid_cards`. -/
def TrickManager.is_valid_play (m : TrickManager) (c : Card) (p : Fin 4) :
    Bool :=
  if c ∈ m.hands p then
    match m.current_trick with
    | none => true
    | some t =>
      match t.cards_played with
      | [] => true
      | _ :: _ =>
        decide (c ∈ Player.get_valid_cards (m.hands p) t.led_suit
          (some m.trump_suit))
  else false

/-- Mirrors `TrickManager._complete_trick` (src/trick.py lines 185-200):
on a finished trick, the winner's pile receives the trick's cards, the
trick goes to history, the winner becomes the current player, and the
open trick is cleared.  (The `winner = None` branch is the source's
guarded `if winner:` fallback.) -/
def TrickManager.complete_trick (m : TrickManager) : TrickManager :=
  match m.current_trick with
  | none => m
  | some t =>
    if t.cards_played.length = 4 then
      match t.winner with
      | some w =>
        { m with
            tricks_won := Function.update m.tricks_won w
              (m.tricks_won w ++ [t.get_cards])
            tricks := m.tricks ++ [t]
            current_player_index := w
            current_trick := none }
      | none =>
        { m with tricks := m.tricks ++ [t], current_trick := none }
    else m

/-- Mirrors `TrickManager.play_card` (src/trick.py lines 146-169).
`none` models both raised errors (no active trick, out of turn) and the
`return False` of an invalid play — all of which the source raises or
returns before mutating anything.  On success the card leaves the hand,
joins the open trick, the turn advances, and a completed trick is
resolved via `complete_trick`. -/
def TrickManager.play_card (m : TrickManager) (c : Card) (p : Fin 4) :
    Option TrickManager :=
  match m.current_trick with
  | none => none
  | some t =>
    if p ≠ m.current_player_index then none
    else if !m.is_valid_play c p then none
    else
      match t.add_card c p (some m.trump_suit) with
      | none => none
      | some t1 =>
        let m1 : TrickManager :=
          { m with
              hands := Function.update m.hands p ((m.hands p).erase c)
              current_trick := some t1
              current_player_index := m.current_player_index + 1 }
        some (if t1.cards_played.length = 4 then m1.complete_trick else m1)

/-- Mirrors `Player.get_total_points` applied to seat `p`
(src/player.py lines 68-73). -/
def TrickManager.player_points (m : TrickManager) (p : Fin 4) : Nat :=
  Player.get_total_points (m.tricks_won p)

/-- Mirrors `TrickManager.get_team_points` (src/trick.py lines 202-207)
under the standard partnerships of `GameSetup.create_standard_game`
(src/player.py lines 162-166): North+South are seats 0 and 2, East+West
are seats 1 and 3. -/
def TrickManager.get_team_points (m : TrickManager) : Nat × Nat :=
  (m.player_points 0 + m.player_points 2,
    m.player_points 1 + m.player_points 3)

/-- C5: the legal-play set is the whole hand for the seat leading the
trick (no led suit yet), only the led-suit cards when the seat holds at
least one, and the whole hand otherwise; and under an open trick with no
card yet played, any card of the hand is accepted. -/
theorem legal_plays_spec :
    (∀ (hand : List Card) (trump : Option Suit),
      Player.get_valid_cards hand none trump = hand) ∧
    (∀ (hand : List Card) (l : Suit) (trump : Option Suit),
      (∃ c ∈ hand, c.suit = l) →
        Player.get_valid_cards hand (some l) trump =
          hand.filter fun c => decide (c.suit = l)) ∧
    (∀ (hand : List Card) (l : Suit) (trump : Option Suit),
      (∀ c ∈ hand, c.suit ≠ l) →
        Player.get_valid_cards hand (some l) trump = hand) ∧
    (∀ (m : TrickManager) (t : Trick) (c : Card) (p : Fin 4),
      m.current_trick = some t → t.cards_played = [] →
        (m.is_valid_play c p = true ↔ c ∈ m.hands p)) := by
  refine ⟨fun hand trump => rfl, ?_, ?_, ?_⟩
  · intro hand l trump ⟨c, hc, hs⟩
    have hne : hand.filter (fun c => decide (c.suit = l)) ≠ [] := by
      intro hnil
      have : c ∈ hand.filter fun c => decide (c.suit = l) :=
        List.mem_filter.mpr ⟨hc, by simp [hs]⟩
      rw [hnil] at this
      exact absurd this (List.not_mem_nil c)
    simp only [Player.get_valid_cards]
    rcases hcase : hand.filter fun c => decide (c.suit = l) with _ | ⟨x, xs⟩
    · exact absurd hcase hne
    · rw [hcase]
  · intro hand l trump hnone
    have hnil : hand.filter (fun c => decide (c.suit = l)) = [] := by
      rw [List.filter_eq_nil_iff]
      intro c hc
      simp [hnone c hc]
    simp only [Player.get_valid_cards, hnil]
  · intro m t c p hm ht
    simp only [TrickManager.is_valid_play, hm, ht]
    by_cases hc : c ∈ m.hands p <;> simp [hc]

/-- Witness for `legal_plays_spec` on a concrete two-card hand. -/
theorem legal_plays_spec_witness :
    (∃ c ∈ [Card.mk .hearts .jack, Card.mk .clubs .nine], c.suit = Suit.hearts) ∧
    Player.get_valid_cards [Card.mk .hearts .jack, Card.mk .clubs .nine]
        (some .hearts) none = [Card.mk .hearts .jack] ∧
    (∀ c ∈ [Card.mk .hearts .jack, Card.mk .clubs .nine], c.suit ≠ Suit.spades) ∧
    Player.get_valid_cards [Card.mk .hearts .jack, Card.mk .clubs .nine]
        (some .spades) none = [Card.mk .hearts .jack, Card.mk .clubs .nine] := by
  refine ⟨by decide, ?_, by decide, ?_⟩
  · exact (legal_plays_spec.2.1 [Card.mk .hearts .jack, Card.mk .clubs .nine]
      .hearts none (by decide)).trans (by decide)
  · exact legal_plays_spec.2.2.1 [Card.mk .hearts .jack, Card.mk .clubs .nine]
      .spades none (by decide)

/-- A manager whose current trick is still open: one card played, three
to go. -/
def open_trick_manager : TrickManager :=
  { trump_suit := .hearts
    hands := fun _ => []
    tricks_won := fun _ => []
    tricks := []
    current_trick := some
      { trick_number := 1
        leading_player := 0
        cards_played := [⟨⟨.clubs, .nine⟩, 0⟩]
        winner := none
        trump_suit := some .hearts
        led_suit := some .clubs }
    current_player_index := 1 }

/-- C6 counterexample: `start_new_trick` does not fail while a prior
trick is still open.  On a manager whose current trick has only 1 of its
4 cards, the call succeeds exactly as on a closed state — it installs a
fresh trick numbered `count(tricks) + 1` and seats the leader — and the
open trick is discarded without ever reaching the history. -/
theorem start_new_trick_ignores_open_trick :
    (∃ t, open_trick_manager.current_trick = some t ∧
      t.cards_played.length = 1) ∧
    (open_trick_manager.start_new_trick 2).current_trick = some
      { trick_number := 1
        leading_player := 2
        cards_played := []
        winner := none
        trump_suit := some .hearts
        led_suit := none } ∧
    (open_trick_manager.start_new_trick 2).current_player_index = 2 ∧
    (open_trick_manager.start_new_trick 2).tricks = [] := by
  exact ⟨⟨_, rfl, rfl⟩, by decide, by decide, rfl⟩

/-- C6 amended: `start_new_trick(leadingSeat)` always succeeds — it
creates a new trick with sequence number `count(tricks) + 1` carrying the
manager's trump suit, makes the leader the current seat, and touches no
other state; when a prior trick is still open it does not fail but
silently discards that trick. -/
theorem start_new_trick_spec (m : TrickManager) (l : Fin 4) :
    (m.start_new_trick l).current_trick = some
      { trick_number := m.tricks.length + 1
        leading_player := l
        cards_played := []
        winner := none
        trump_suit := some m.trump_suit
        led_suit := none } ∧
    (m.start_new_trick l).current_player_index = l ∧
    (m.start_new_trick l).tricks = m.tricks ∧
    (m.start_new_trick l).hands = m.hands ∧
    (m.start_new_trick l).tricks_won = m.tricks_won :=
  ⟨rfl, rfl, rfl, rfl, rfl⟩

/-- The standard seat-to-partnership map of
`GameSetup.create_standard_game` (src/player.py lines 162-166). -/
def std_team_of : Fin 4 → Fin 2 :=
  fun p => ⟨p.val % 2, Nat.mod_lt _ (by omega)⟩

/-- Modelled from the spec: the seat whose turn it is under the fixed
bidding rotation — the starting seat advanced by the number of recorded
actions.  `BiddingRound` itself stores no such notion; its
`get_next_player` (src/bidding.py lines 109-113) is advisory only and
`make_bid` never consults it. -/
def BiddingRound.expected_actor (s : BiddingRound) : Fin 4 :=
  ⟨(s.starting_player.val + s.bids.length) % 4, Nat.mod_lt _ (by omega)⟩

/-- C7 counterexample: the bidding engine does not enforce rotation.  In
a fresh round started by seat 0 the expected actor is seat 0, yet a bid
by seat 2 is accepted and mutates the state (it becomes the winning
bid). -/
theorem bidding_accepts_out_of_rotation :
    (BiddingRound.init std_team_of 0).expected_actor = 0 ∧
    ((2 : Fin 4) ≠ (BiddingRound.init std_team_of 0).expected_actor) ∧
    ((BiddingRound.init std_team_of 0).make_bid 2 .bid 30).2 = true ∧
    ((BiddingRound.init std_team_of 0).make_bid 2 .bid 30).1.winning_bid =
      some ⟨2, .bid, 30⟩ := by
  refine ⟨rfl, by decide, rfl, rfl⟩

/-- C7 amended: every rejection is side-effect-free — a failed `make_bid`
returns the bidding state unchanged, and `play_card` yields a new state
only when the acting seat is the current seat, a trick is open, and the
play is legal (its rejections produce no state at all; the source raises
or returns `False` before any mutation).  The trick engine thus enforces
turn order, but the bidding engine accepts actions from any seat
(rotation there is the caller's concern, see
`bidding_accepts_out_of_rotation`). -/
theorem rejections_leave_state_unchanged :
    (∀ (s : BiddingRound) (p : Fin 4) (act : BidAction) (amount : Nat),
      (s.make_bid p act amount).2 = false → (s.make_bid p act amount).1 = s) ∧
    (∀ (m : TrickManager) (c : Card) (p : Fin 4),
      m.play_card c p ≠ none →
        p = m.current_player_index ∧ m.current_trick ≠ none ∧
          m.is_valid_play c p = true) := by
  constructor
  · intro s p act amount h
    by_cases hc : s.is_complete = true
    · simp [BiddingRound.make_bid, hc]
    · cases act
      · by_cases hb : s.can_player_bid p amount = true
        · simp [BiddingRound.make_bid, hc, hb] at h
        · simp [BiddingRound.make_bid, hc, hb]
      · have hpass : (s.make_bid p .pass amount).2 = true := by
          by_cases hcond :
              2 ≤ s.consecutive_passes ∧ (s.winning_bid).isSome = true
          · simp [BiddingRound.make_bid, hc, hcond]
          · simp [BiddingRound.make_bid, hc, hcond]
        rw [hpass] at h
        exact Bool.noConfusion h
  · intro m c p h
    unfold TrickManager.play_card at h
    rcases hct : m.current_trick with _ | t
    · rw [hct] at h
      exact absurd rfl h
    · rw [hct] at h
      by_cases hp : p = m.current_player_index
      · by_cases hv : m.is_valid_play c p = true
        · exact ⟨hp, by simp, hv⟩
        · exfalso
          apply h
          have hv' : m.is_valid_play c p = false := by
            revert hv; cases m.is_valid_play c p <;> simp
          have hv'' : m.is_valid_play c m.current_player_index = false := by
            rw [← hp]; exact hv'
          simp [hp, hv'']
      · exfalso
        apply h
        simp [hp]

/-- A bidding round that is already complete. -/
def complete_round : BiddingRound :=
  { BiddingRound.init std_team_of 0 with is_complete := true }

/-- A one-card manager with an open, empty trick led by seat 0. -/
def tiny_manager : TrickManager :=
  (TrickManager.init (fun _ => [⟨.hearts, .jack⟩]) .hearts).start_new_trick 0

/-- Witness for `rejections_leave_state_unchanged`: a bid into a complete
round is rejected with the state intact, and a play that goes through
certifies turn, open trick, and legality. -/
theorem rejections_leave_state_unchanged_witness :
    (complete_round.make_bid 0 .bid 30).2 = false ∧
    (complete_round.make_bid 0 .bid 30).1 = complete_round ∧
    tiny_manager.play_card ⟨.hearts, .jack⟩ 0 ≠ none ∧
    (0 : Fin 4) = tiny_manager.current_player_index ∧
    tiny_manager.is_valid_play ⟨.hearts, .jack⟩ 0 = true := by
  have hsome : (tiny_manager.play_card ⟨.hearts, .jack⟩ 0).isSome = true := rfl
  have hne : tiny_manager.play_card ⟨.hearts, .jack⟩ 0 ≠ none :=
    Option.ne_none_iff_isSome.mpr hsome
  exact ⟨rfl, rejections_leave_state_unchanged.1 complete_round 0 .bid 30 rfl,
    hne,
    (rejections_leave_state_unchanged.2 tiny_manager ⟨.hearts, .jack⟩ 0 hne).1,
    (rejections_leave_state_unchanged.2 tiny_manager ⟨.hearts, .jack⟩ 0 hne).2.2⟩

/-- Mirrors the two per-team fields `GameRound.calculate_scores` reads
from `Team` (src/player.py lines 94-98): the committed bid and the
bidding-team flag. -/
structure Team where
  bid : Nat
  is_bidding_team : Bool
deriving DecidableEq

/-- Mirrors `GameRound.calculate_scores` (src/game.py lines 115-150) for
the two teams in list order with their trick points.  The source's
for-loop assigns `bidding_team`/`defending_team` with later iterations
overwriting earlier ones; `Except.error` models the two raised
`ValueError`s, and the pair is (team0 score, team1 score). -/
def calculate_scores (round_complete : Bool) (team0 team1 : Team)
    (points0 points1 : Nat) : Except String (Int × Int) :=
  if !round_complete then .error "Round not complete"
  else
    let bidding : Option (Fin 2) :=
      if team1.is_bidding_team then some 1
      else if team0.is_bidding_team then some 0
      else none
    let defending : Option (Fin 2) :=
      if !team1.is_bidding_team then some 1
      else if !team0.is_bidding_team then some 0
      else none
    match bidding, defending with
    | some bi, some _ =>
      let bidding_points := if bi = 0 then points0 else points1
      let bid_amount := if bi = 0 then team0.bid else team1.bid
      if bid_amount ≤ bidding_points then
        .ok (if bi = 0 then ((bid_amount : Int), 56 - (bid_amount : Int))
          else (56 - (bid_amount : Int), (bid_amount : Int)))
      else
        .ok (if bi = 0 then ((0 : Int), 56) else ((56 : Int), 0))
    | _, _ => .error "Could not identify bidding and defending teams"

/-- C4: for a completed round whose bidding team committed to bid `b`,
the bidding team scores exactly `b` and the defenders `56 - b` when the
bidding team's trick points reach `b`, and otherwise the bidding team
scores 0 and the defenders 56 — whichever slot the bidding team occupies;
and with no bidding team identified (no winning bid was committed) the
scorer reports an error instead of producing scores. -/
theorem calculate_scores_spec :
    (∀ (b db pB pD : Nat),
      calculate_scores true ⟨b, true⟩ ⟨db, false⟩ pB pD =
        .ok (if b ≤ pB then ((b : Int), 56 - (b : Int)) else (0, 56)) ∧
      calculate_scores true ⟨db, false⟩ ⟨b, true⟩ pD pB =
        .ok (if b ≤ pB then (56 - (b : Int), (b : Int)) else (56, 0))) ∧
    (∀ (b0 b1 p0 p1 : Nat),
      calculate_scores true ⟨b0, false⟩ ⟨b1, false⟩ p0 p1 =
        .error "Could not identify bidding and defending teams") := by
  constructor
  · intro b db pB pD
    constructor
    · by_cases hb : b ≤ pB <;> simp [calculate_scores, hb]
    · by_cases hb : b ≤ pB <;> simp [calculate_scores, hb]
  · intro b0 b1 p0 p1
    simp [calculate_scores]

/-- One action of the trick phase: start a trick or play a card. -/
inductive Move where
  | start (leading : Fin 4)
  | play (p : Fin 4) (c : Card)

/-- One step of the caller protocol of `GameRound.play_tricks`
(src/game.py lines 79-104): a new trick is started only between tricks
(no trick open), and every card goes through `TrickManager.play_card`. -/
def TrickManager.step (m : TrickManager) : Move → Option TrickManager
  | .start l =>
    match m.current_trick with
    | none => some (m.start_new_trick l)
    | some _ => none
  | .play p c => m.play_card c p

/-- Run a move script, failing as soon as a step is rejected. -/
def TrickManager.run (m : TrickManager) : List Move → Option TrickManager
  | [] => some m
  | mv :: rest =>
    match m.step mv with
    | none => none
    | some m1 => m1.run rest

/-- Sum of a seat-indexed quantity over the four seats. -/
def sum4 (f : Fin 4 → Nat) : Nat :=
  f 0 + f 1 + f 2 + f 3

/-- Card points held in the four hands. -/
def TrickManager.hand_points (m : TrickManager) : Nat :=
  sum4 fun p => calculate_hand_points (m.hands p)

/-- Cards held in the four hands. -/
def TrickManager.hand_count (m : TrickManager) : Nat :=
  sum4 fun p => (m.hands p).length

/-- Card points accumulated in the four won-piles
(`Player.get_total_points` summed over the seats). -/
def TrickManager.pile_points (m : TrickManager) : Nat :=
  sum4 fun p => Player.get_total_points (m.tricks_won p)

/-- Cards in one seat's won-pile. -/
def pile_sizes (piles : List (List Card)) : Nat :=
  (piles.map List.length).sum

/-- Cards accumulated in the four won-piles. -/
def TrickManager.pile_count (m : TrickManager) : Nat :=
  sum4 fun p => pile_sizes (m.tricks_won p)

/-- Card points sitting in the open trick. -/
def TrickManager.open_points (m : TrickManager) : Nat :=
  match m.current_trick with
  | none => 0
  | some t => calculate_hand_points t.get_cards

/-- Cards sitting in the open trick. -/
def TrickManager.open_count (m : TrickManager) : Nat :=
  match m.current_trick with
  | none => 0
  | some t => t.cards_played.length

/-- The led suit recorded in a trick is the suit of its first play (an
invariant `Trick.add_card` maintains from the empty trick on). -/
def led_ok (t : Trick) : Prop :=
  t.led_suit = t.cards_played.head?.map fun tc => tc.card.suit

/-- Conservation invariant of the trick phase: hand, pile, and open-trick
points always total 56 and cards always total 48; piles hold exactly 4
cards per recorded trick; the open trick's led suit is its first play's
suit. -/
def TrickInv (m : TrickManager) : Prop :=
  m.hand_points + m.pile_points + m.open_points = 56 ∧
  m.hand_count + m.pile_count + m.open_count = 48 ∧
  m.pile_count = 4 * m.tricks.length ∧
  ∀ t, m.current_trick = some t → led_ok t

/-- Points of a concatenation split additively. -/
theorem chp_append (a b : List Card) :
    calculate_hand_points (a ++ b) =
      calculate_hand_points a + calculate_hand_points b := by
  simp [calculate_hand_points]

/-- Erasing a held card removes exactly its points. -/
theorem chp_erase {l : List Card} {c : Card} (hc : c ∈ l) :
    calculate_hand_points (l.erase c) + c.points = calculate_hand_points l := by
  have hp : l.Perm (c :: l.erase c) := List.perm_cons_erase hc
  have hs := (hp.map Card.points).sum_eq
  simp only [calculate_hand_points, List.map_cons, List.sum_cons] at hs ⊢
  omega

/-- Erasing a held card removes exactly one card. -/
theorem length_erase_mem {l : List Card} {c : Card} (hc : c ∈ l) :
    (l.erase c).length + 1 = l.length := by
  have h1 := List.length_erase_of_mem hc
  have h2 : 0 < l.length := List.length_pos_of_mem hc
  omega

/-- A zero-length list of cards carries zero points. -/
theorem chp_len_zero {l : List Card} (h : l.length = 0) :
    calculate_hand_points l = 0 := by
  cases l with
  | nil => rfl
  | cons a as => simp at h

/-- Appending one trick to a pile adds exactly its points. -/
theorem gtp_append (piles : List (List Card)) (x : List Card) :
    Player.get_total_points (piles ++ [x]) =
      Player.get_total_points piles + calculate_hand_points x := by
  simp [Player.get_total_points]

/-- Updating one seat's slot changes a four-seat sum by exactly the
difference between the new and old values (stated additively). -/
theorem sum4_update_apply {α : Type} (g : α → Nat) (f : Fin 4 → α)
    (p : Fin 4) (v : α) :
    sum4 (fun q => g (Function.update f p v q)) + g (f p) =
      sum4 (fun q => g (f q)) + g v := by
  fin_cases p <;> simp [sum4, Function.update_apply] <;> omega

/-- A play that validates was in the acting seat's hand
(src/trick.py line 173). -/
theorem is_valid_play_mem {m : TrickManager} {c : Card} {p : Fin 4}
    (h : m.is_valid_play c p = true) : c ∈ m.hands p := by
  unfold TrickManager.is_valid_play at h
  by_cases hc : c ∈ m.hands p
  · exact hc
  · rw [if_neg hc] at h
    exact Bool.noConfusion h

/-- A full 4-card trick whose led suit is its first play's suit always
resolves a winner: the first play lands in the trump bucket or in the
led-suit bucket, so one of them is nonempty. -/
theorem winner_exists {t : Trick} (hled : led_ok t)
    (h4 : t.cards_played.length = 4) :
    ∃ w, t.determine_winner = some w := by
  rcases hcp : t.cards_played with _ | ⟨tc0, rest⟩
  · rw [hcp] at h4
    exact absurd h4 (by simp)
  · rcases htp : t.trump_plays with _ | ⟨a, as⟩
    · have htc0 : ¬(t.is_trump_play tc0 = true) := by
        intro hh
        have hmem : tc0 ∈ t.trump_plays := by
          unfold Trick.trump_plays
          rw [hcp]
          exact List.mem_filter.mpr ⟨List.mem_cons_self tc0 rest, hh⟩
        rw [htp] at hmem
        exact absurd hmem (List.not_mem_nil tc0)
      have hcond : (!t.is_trump_play tc0 &&
          decide (some tc0.card.suit = t.led_suit)) = true := by
        have h1 : t.is_trump_play tc0 = false := by
          revert htc0; cases t.is_trump_play tc0 <;> simp
        have h2 : t.led_suit = some tc0.card.suit := by
          rw [hled, hcp]
          rfl
        rw [h1, h2]
        simp
      have hld : tc0 ∈ t.led_plays := by
        unfold Trick.led_plays
        rw [hcp]
        exact List.mem_filter.mpr ⟨List.mem_cons_self tc0 rest, hcond⟩
      rcases hlp : t.led_plays with _ | ⟨b, bs⟩
      · rw [hlp] at hld
        exact absurd hld (List.not_mem_nil tc0)
      · refine ⟨(max_by b bs).player, ?_⟩
        unfold Trick.determine_winner
        rw [if_pos h4, htp, hlp]
    · refine ⟨(max_by a as).player, ?_⟩
      unfold Trick.determine_winner
      rw [if_pos h4, htp]

/-- `Trick._determine_winner` reads only the plays, the trump suit, and
the led suit. -/
theorem determine_winner_congr {t t' : Trick}
    (hc : t.cards_played = t'.cards_played)
    (htr : t.trump_suit = t'.trump_suit) (hl : t.led_suit = t'.led_suit) :
    t.determine_winner = t'.determine_winner := by
  unfold Trick.determine_winner Trick.trump_plays Trick.led_plays
    Trick.is_trump_play
  rw [hc, htr, hl]

/-- What a successful `Trick.add_card` yields: the play is appended, the
led-suit invariant is preserved, and on the fourth card a winner is
recorded. -/
theorem add_card_props {t : Trick} {c : Card} {p : Fin 4} {tr : Option Suit}
    {t1 : Trick} (h : t.add_card c p tr = some t1) (hled : led_ok t) :
    t1.cards_played = t.cards_played ++ [⟨c, p⟩] ∧ led_ok t1 ∧
    (t1.cards_played.length = 4 → ∃ w, t1.winner = some w) := by
  unfold Trick.add_card at h
  unfold led_ok at hled
  by_cases hlen : 4 ≤ t.cards_played.length
  · rw [if_pos hlen] at h
    exact Option.noConfusion h
  · rw [if_neg hlen] at h
    have h' := Option.some.inj h
    have hled1 : ∀ (tb : Trick),
        tb.cards_played = t.cards_played ++ [TrickCard.mk c p] →
        tb.led_suit = (if (t.cards_played ++ [TrickCard.mk c p]).length = 1
          then some c.suit else t.led_suit) →
        led_ok tb := by
      intro tb hcards hsuit
      unfold led_ok
      rw [hcards, hsuit]
      rcases hcp : t.cards_played with _ | ⟨a, as⟩
      · simp
      · rw [hcp] at hled
        simp only [List.cons_append, List.length_cons, List.head?_cons]
        rw [if_neg (by simp)]
        rw [hled]
        rfl
    by_cases h4 : (t.cards_played ++ [TrickCard.mk c p]).length = 4
    · rw [if_pos h4] at h'
      have hcards1 : t1.cards_played = t.cards_played ++ [TrickCard.mk c p] := by
        rw [← h']
      have hledt1 : led_ok t1 := hled1 t1 hcards1 (by rw [← h'])
      refine ⟨hcards1, hledt1, ?_⟩
      intro h4'
      obtain ⟨w, hw⟩ := winner_exists hledt1 h4'
      refine ⟨w, ?_⟩
      rw [← hw, ← h']
      exact determine_winner_congr rfl rfl rfl
    · rw [if_neg h4] at h'
      refine ⟨by rw [← h'], ?_, ?_⟩
      · exact hled1 t1 (by rw [← h']) (by rw [← h'])
      · intro hlen
        rw [← h'] at hlen
        exact absurd hlen h4

/-- What `TrickManager.complete_trick` does on a finished trick with a
resolved winner. -/
theorem complete_trick_eq {m : TrickManager} {t1 : Trick} {w : Fin 4}
    (hct : m.current_trick = some t1) (h4 : t1.cards_played.length = 4)
    (hw : t1.winner = some w) :
    m.complete_trick = { m with
      tricks_won := Function.update m.tricks_won w
        (m.tricks_won w ++ [t1.get_cards])
      tricks := m.tricks ++ [t1]
      current_player_index := w
      current_trick := none } := by
  unfold TrickManager.complete_trick
  rw [hct]
  simp [h4, hw]

/-- Appending one trick to a pile adds exactly its card count. -/
theorem pile_sizes_append (piles : List (List Card)) (x : List Card) :
    pile_sizes (piles ++ [x]) = pile_sizes piles + x.length := by
  simp [pile_sizes]

/-- Inversion of a successful `TrickManager.play_card`: the acting seat
was current, the play validated, the card joined the open trick, and the
result is the advanced state, completed when the trick filled up. -/
theorem play_card_inv {m : TrickManager} {c : Card} {p : Fin 4}
    {m1 : TrickManager} (h : m.play_card c p = some m1) :
    ∃ t t1, m.current_trick = some t ∧ p = m.current_player_index ∧
      m.is_valid_play c p = true ∧
      t.add_card c p (some m.trump_suit) = some t1 ∧
      m1 = (if t1.cards_played.length = 4
        then TrickManager.complete_trick
          { m with
              hands := Function.update m.hands p ((m.hands p).erase c)
              current_trick := some t1
              current_player_index := m.current_player_index + 1 }
        else
          { m with
              hands := Function.update m.hands p ((m.hands p).erase c)
              current_trick := some t1
              current_player_index := m.current_player_index + 1 }) := by
  unfold TrickManager.play_card at h
  split at h
  · exact Option.noConfusion h
  · rename_i t hct
    split at h
    · exact Option.noConfusion h
    · rename_i hp
      split at h
      · exact Option.noConfusion h
      · rename_i hv
        split at h
        · exact Option.noConfusion h
        · rename_i t1 hac
          refine ⟨t, t1, hct, not_not.mp hp, ?_, hac, (Option.some.inj h).symm⟩
          revert hv
          cases m.is_valid_play c p <;> simp

/-- One protocol step preserves the conservation invariant. -/
theorem step_preserves_inv {m m1 : TrickManager} {mv : Move}
    (hinv : TrickInv m) (h : m.step mv = some m1) : TrickInv m1 := by
  obtain ⟨hpts, hcnt, hpile, hled⟩ := hinv
  cases mv with
  | start l =>
    unfold TrickManager.step at h
    rcases hct : m.current_trick with _ | t
    · rw [hct] at h
      have hm1 := Option.some.inj h
      subst hm1
      have hopen : m.open_points = 0 := by
        simp [TrickManager.open_points, hct]
      have hocnt : m.open_count = 0 := by
        simp [TrickManager.open_count, hct]
      refine ⟨?_, ?_, ?_, ?_⟩
      · show m.hand_points + m.pile_points + 0 = 56
        omega
      · show m.hand_count + m.pile_count + 0 = 48
        omega
      · show m.pile_count = 4 * m.tricks.length
        exact hpile
      · intro t' ht'
        have ht'' := Option.some.inj ht'
        rw [← ht'']
        rfl
    · rw [hct] at h
      exact Option.noConfusion h
  | play p c =>
    unfold TrickManager.step at h
    obtain ⟨t, t1, hct, hpe, hvt, hac, hm1⟩ := play_card_inv h
    have hcmem : c ∈ m.hands p := is_valid_play_mem hvt
    have hledt : led_ok t := hled t hct
    obtain ⟨hcards, hled1, hwin⟩ := add_card_props hac hledt
    have hlen1 : t1.cards_played.length = t.cards_played.length + 1 := by
      rw [hcards]
      simp
    have hgc1 : calculate_hand_points t1.get_cards =
        calculate_hand_points t.get_cards + c.points := by
      unfold Trick.get_cards
      rw [hcards]
      simp [calculate_hand_points]
    have ehp := sum4_update_apply calculate_hand_points m.hands p
      ((m.hands p).erase c)
    have ehc := sum4_update_apply List.length m.hands p ((m.hands p).erase c)
    have hep := chp_erase hcmem
    have hec := length_erase_mem hcmem
    have hopm : m.open_points = calculate_hand_points t.get_cards := by
      simp [TrickManager.open_points, hct]
    have hocm : m.open_count = t.cards_played.length := by
      simp [TrickManager.open_count, hct]
    by_cases h4 : t1.cards_played.length = 4
    · obtain ⟨w, hw⟩ := hwin h4
      rw [if_pos h4] at hm1
      have hcteq := @complete_trick_eq
        { m with
            hands := Function.update m.hands p ((m.hands p).erase c)
            current_trick := some t1
            current_player_index := m.current_player_index + 1 }
        t1 w rfl h4 hw
      rw [hcteq] at hm1
      subst hm1
      have epp := sum4_update_apply Player.get_total_points m.tricks_won w
        (m.tricks_won w ++ [t1.get_cards])
      have epc := sum4_update_apply pile_sizes m.tricks_won w
        (m.tricks_won w ++ [t1.get_cards])
      have egtp := gtp_append (m.tricks_won w) t1.get_cards
      have egtc := pile_sizes_append (m.tricks_won w) t1.get_cards
      have egcl : t1.get_cards.length = 4 := by
        unfold Trick.get_cards
        rw [List.length_map]
        exact h4
      refine ⟨?_, ?_, ?_, ?_⟩
      · show sum4 (fun q => calculate_hand_points
            (Function.update m.hands p ((m.hands p).erase c) q)) +
          sum4 (fun q => Player.get_total_points
            (Function.update m.tricks_won w
              (m.tricks_won w ++ [t1.get_cards]) q)) + 0 = 56
        have em : m.hand_points =
            sum4 (fun q => calculate_hand_points (m.hands q)) := rfl
        have pm : m.pile_points =
            sum4 (fun q => Player.get_total_points (m.tricks_won q)) := rfl
        omega
      · show sum4 (fun q =>
            (Function.update m.hands p ((m.hands p).erase c) q).length) +
          sum4 (fun q => pile_sizes
            (Function.update m.tricks_won w
              (m.tricks_won w ++ [t1.get_cards]) q)) + 0 = 48
        have em : m.hand_count =
            sum4 (fun q => (m.hands q).length) := rfl
        have pm : m.pile_count =
            sum4 (fun q => pile_sizes (m.tricks_won q)) := rfl
        omega
      · show sum4 (fun q => pile_sizes
            (Function.update m.tricks_won w
              (m.tricks_won w ++ [t1.get_cards]) q)) =
          4 * (m.tricks ++ [t1]).length
        have pm : m.pile_count =
            sum4 (fun q => pile_sizes (m.tricks_won q)) := rfl
        have hl : (m.tricks ++ [t1]).length = m.tricks.length + 1 := by
          simp
        omega
      · intro t' ht'
        exact Option.noConfusion ht'
    · rw [if_neg h4] at hm1
      subst hm1
      refine ⟨?_, ?_, ?_, ?_⟩
      · show sum4 (fun q => calculate_hand_points
            (Function.update m.hands p ((m.hands p).erase c) q)) +
          m.pile_points + calculate_hand_points t1.get_cards = 56
        have em : m.hand_points =
            sum4 (fun q => calculate_hand_points (m.hands q)) := rfl
        omega
      · show sum4 (fun q =>
            (Function.update m.hands p ((m.hands p).erase c) q).length) +
          m.pile_count + t1.cards_played.length = 48
        have em : m.hand_count =
            sum4 (fun q => (m.hands q).length) := rfl
        omega
      · show m.pile_count = 4 * m.tricks.length
        exact hpile
      · intro t' ht'
        have ht'' := Option.some.inj ht'
        rw [← ht'']
        exact hled1

/-- Running any move script preserves the conservation invariant. -/
theorem run_preserves_inv : ∀ (moves : List Move) (m st : TrickManager),
    TrickInv m → m.run moves = some st → TrickInv st := by
  intro moves
  induction moves with
  | nil =>
    intro m st hinv h
    rw [TrickManager.run] at h
    rw [← Option.some.inj h]
    exact hinv
  | cons mv rest ih =>
    intro m st hinv h
    unfold TrickManager.run at h
    rcases hs : m.step mv with _ | m1
    · rw [hs] at h
      exact Option.noConfusion h
    · rw [hs] at h
      exact ih m1 st (step_preserves_inv hinv hs) h

/-- A fresh manager over hands dealt from the full deck satisfies the
conservation invariant. -/
theorem init_inv (h : Fin 4 → List Card) (trump : Suit)
    (hperm : (h 0 ++ h 1 ++ h 2 ++ h 3).Perm full_deck) :
    TrickInv (TrickManager.init h trump) := by
  have hp : calculate_hand_points (h 0 ++ h 1 ++ h 2 ++ h 3) =
      calculate_hand_points full_deck := by
    unfold calculate_hand_points
    exact (hperm.map Card.points).sum_eq
  have hl : (h 0 ++ h 1 ++ h 2 ++ h 3).length = full_deck.length :=
    hperm.length_eq
  have hfd : calculate_hand_points full_deck = 56 := by decide
  have hfl : full_deck.length = 48 := by decide
  refine ⟨?_, ?_, ?_, ?_⟩
  · show sum4 (fun q => calculate_hand_points (h q)) + 0 + 0 = 56
    have e : calculate_hand_points (h 0 ++ h 1 ++ h 2 ++ h 3) =
        calculate_hand_points (h 0 ++ h 1 ++ h 2) +
          calculate_hand_points (h 3) := chp_append _ _
    have e2 : calculate_hand_points (h 0 ++ h 1 ++ h 2) =
        calculate_hand_points (h 0 ++ h 1) +
          calculate_hand_points (h 2) := chp_append _ _
    have e3 : calculate_hand_points (h 0 ++ h 1) =
        calculate_hand_points (h 0) + calculate_hand_points (h 1) :=
      chp_append _ _
    have s4 : sum4 (fun q => calculate_hand_points (h q)) =
        calculate_hand_points (h 0) + calculate_hand_points (h 1) +
          calculate_hand_points (h 2) + calculate_hand_points (h 3) := rfl
    omega
  · show sum4 (fun q => (h q).length) + 0 + 0 = 48
    have e : (h 0 ++ h 1 ++ h 2 ++ h 3).length =
        (h 0).length + (h 1).length + (h 2).length + (h 3).length := by
      simp only [List.length_append]
    have s4 : sum4 (fun q => (h q).length) =
        (h 0).length + (h 1).length + (h 2).length + (h 3).length := rfl
    omega
  · rfl
  · intro t' ht'
    exact Option.noConfusion ht'

/-- C8: after any protocol-respecting run from a full-deck deal that has
recorded 12 tricks, the two partnerships' team points sum to exactly 56 —
every card of every completed trick is banked in exactly one winner's
pile and card points are conserved from deal to tally. -/
theorem team_points_total_56 (h : Fin 4 → List Card) (trump : Suit)
    (moves : List Move) (st : TrickManager)
    (hdeal : (h 0 ++ h 1 ++ h 2 ++ h 3).Perm full_deck)
    (hrun : (TrickManager.init h trump).run moves = some st)
    (h12 : st.tricks.length = 12) :
    (st.get_team_points).1 + (st.get_team_points).2 = 56 := by
  obtain ⟨hpts, hcnt, hpile, _⟩ :=
    run_preserves_inv moves _ st (init_inv h trump hdeal) hrun
  have hpc : st.pile_count = 48 := by rw [hpile, h12]
  have hh0 : st.hand_count = 0 := by omega
  have ho0 : st.open_count = 0 := by omega
  have eexp : st.hand_count = (st.hands 0).length + (st.hands 1).length +
      (st.hands 2).length + (st.hands 3).length := rfl
  have l0 : (st.hands 0).length = 0 := by omega
  have l1 : (st.hands 1).length = 0 := by omega
  have l2 : (st.hands 2).length = 0 := by omega
  have l3 : (st.hands 3).length = 0 := by omega
  have hhp : st.hand_points = 0 := by
    have pexp : st.hand_points = calculate_hand_points (st.hands 0) +
        calculate_hand_points (st.hands 1) +
        calculate_hand_points (st.hands 2) +
        calculate_hand_points (st.hands 3) := rfl
    rw [pexp, chp_len_zero l0, chp_len_zero l1, chp_len_zero l2,
      chp_len_zero l3]
  have hop : st.open_points = 0 := by
    rcases hcto : st.current_trick with _ | t
    · simp [TrickManager.open_points, hcto]
    · have hoc : st.open_count = t.cards_played.length := by
        simp [TrickManager.open_count, hcto]
      have hl0 : t.cards_played.length = 0 := by omega
      have hgl : t.get_cards.length = 0 := by
        unfold Trick.get_cards
        rw [List.length_map]
        exact hl0
      simp [TrickManager.open_points, hcto, chp_len_zero hgl]
  have et : (st.get_team_points).1 + (st.get_team_points).2 =
      st.player_points 0 + st.player_points 2 +
        (st.player_points 1 + st.player_points 3) := rfl
  have ep : st.pile_points = st.player_points 0 + st.player_points 1 +
      st.player_points 2 + st.player_points 3 := rfl
  omega

/-- Twelve cards of one suit: both copies of its six ranks. -/
def demo_hand (s : Suit) : List Card :=
  (rank_order.map fun r => Card.mk s r) ++ (rank_order.map fun r => Card.mk s r)

/-- A concrete deal of the full deck: each seat holds one entire suit. -/
def demo_deal (p : Fin 4) : List Card :=
  demo_hand (suit_order.getD p.val .hearts)

/-- Seat `p`'s `i`-th card under the demo deal. -/
def demo_card (p : Fin 4) (i : Nat) : Card :=
  (demo_deal p).getD i (Card.mk .hearts .jack)

/-- Twelve tricks led by seat 0, every seat playing its cards in hand
order; with hearts trump, seat 0's heart wins every trick. -/
def demo_moves : List Move :=
  (List.range 12).flatMap fun i =>
    [Move.start 0, Move.play 0 (demo_card 0 i), Move.play 1 (demo_card 1 i),
      Move.play 2 (demo_card 2 i), Move.play 3 (demo_card 3 i)]

/-- The manager state after the demo round. -/
def demo_final : TrickManager :=
  ((TrickManager.init demo_deal .hearts).run demo_moves).getD
    (TrickManager.init demo_deal .hearts)

/-- Witness for `team_points_total_56`: the demo round runs to completion
with 12 recorded tricks, and the team points indeed total 56. -/
theorem team_points_total_56_witness :
    (demo_deal 0 ++ demo_deal 1 ++ demo_deal 2 ++ demo_deal 3).Perm full_deck ∧
    (TrickManager.init demo_deal .hearts).run demo_moves = some demo_final ∧
    demo_final.tricks.length = 12 ∧
    (demo_final.get_team_points).1 + (demo_final.get_team_points).2 = 56 := by
  refine ⟨by decide, by rfl, by rfl, ?_⟩
  exact team_points_total_56 demo_deal .hearts demo_moves demo_final
    (by decide) (by rfl) (by rfl)
